import Mathlib

/-!
Verification of the geotechLogs borehole-log library (`Well.py`) against its
natural-language specification.

The embedding models the pandas `DataFrame` holding a well's stratigraphic
intervals as a list of (index label, record) pairs, because the source relies
on pandas index labels in an essential way:

* `add_interval` appends with `ignore_index=True` (which relabels all rows
  `0..n-1` in their pre-sort order), then `drop_duplicates` (keep-first),
  then `sort_values(by='Top')` (which reorders rows but keeps their labels);
* `remove_interval(layNum=k)` calls `DataFrame.drop(k)`, which drops the row
  whose *label* is `k` (raising `KeyError` when absent);
* both `plotWell` and `plotSection` iterate `for i in self.intervals.index`
  and read `self.intervals.iloc[i]`, i.e. they use each *label* as a
  *position* (raising `IndexError` when a label is out of positional range).

Depth/elevation/coordinate values are modelled as rationals.  `sort_values`
is modelled as a stable sort (insertion sort); pandas' default sort decides
ties among equal `Top` keys in an unspecified way, and no claim settled here
depends on the order of rows with equal `Top`.

Plot calls are modelled as functions from the argument data to
`Except PlotError <output>`: the output (drawn rectangles, placed text
labels, optional saved-file name) exists only when the Python call runs to
completion, mirroring the fact that `plt.show()` / `plt.savefig` sit at the
end of each function so that any raised exception yields no displayed figure
and no file.  Axis cosmetics (tick locators, spines, grid, legend) carry no
interval data and are not modelled.
-/

namespace GeotechLogs

/-- One stratigraphic interval row, with the four columns of the
`intervals` DataFrame: `['Lithology', 'Top', 'Bottom', 'Description']`. -/
structure IntervalRecord where
  lithology : String
  top : ℚ
  bottom : ℚ
  description : String
  deriving DecidableEq, Repr

/-- The `intervals` DataFrame: rows in storage order, each carrying its
pandas index label. -/
structure IntervalsDF where
  rows : List (Nat × IntervalRecord)
  deriving DecidableEq, Repr

/-- The class-level empty table:
`intervals = pd.DataFrame(columns=['Lithology', 'Top', 'Bottom', 'Description'])`. -/
def emptyIntervals : IntervalsDF := ⟨[]⟩

/-- The column data of a DataFrame, i.e. its rows without their index
labels. -/
def records (df : IntervalsDF) : List IntervalRecord := df.rows.map Prod.snd

/-- `self.intervals.append(interval, ignore_index=True)`: appends the new
row at the end and relabels all rows `0..n-1` in that order. -/
def appendIgnoreIndex (df : IntervalsDF) (r : IntervalRecord) : IntervalsDF :=
  ⟨(records df ++ [r]).enum⟩

/-- Keep-first duplicate dropping over the raw records, tracking the set of
records already seen. -/
def dedupRecsAux (seen : List IntervalRecord) :
    List IntervalRecord → List IntervalRecord
  | [] => []
  | r :: rs =>
    if r ∈ seen then dedupRecsAux seen rs
    else r :: dedupRecsAux (r :: seen) rs

/-- Keep-first duplicate dropping over labelled rows (rows whose record
content already occurred earlier are dropped; labels of kept rows are
unchanged), tracking the records already seen. -/
def dedupRowsAux (seen : List IntervalRecord) :
    List (Nat × IntervalRecord) → List (Nat × IntervalRecord)
  | [] => []
  | p :: ps =>
    if p.2 ∈ seen then dedupRowsAux seen ps
    else p :: dedupRowsAux (p.2 :: seen) ps

/-- `self.intervals.drop_duplicates()`: drop rows whose full record content
(same Lithology/Top/Bottom/Description) occurred in an earlier row. -/
def dedupDF (df : IntervalsDF) : IntervalsDF := ⟨dedupRowsAux [] df.rows⟩

/-- Comparison of labelled rows by the `Top` column. -/
def rowLE (a b : Nat × IntervalRecord) : Prop := a.2.top ≤ b.2.top

instance : DecidableRel rowLE :=
  fun a b => inferInstanceAs (Decidable (a.2.top ≤ b.2.top))

instance : IsTotal (Nat × IntervalRecord) rowLE :=
  ⟨fun a b => le_total a.2.top b.2.top⟩

instance : IsTrans (Nat × IntervalRecord) rowLE :=
  ⟨fun _ _ _ h1 h2 => le_trans h1 h2⟩

/-- Comparison of raw records by the `Top` column. -/
def recLE (a b : IntervalRecord) : Prop := a.top ≤ b.top

instance : DecidableRel recLE :=
  fun a b => inferInstanceAs (Decidable (a.top ≤ b.top))

instance : IsTotal IntervalRecord recLE := ⟨fun a b => le_total a.top b.top⟩

instance : IsTrans IntervalRecord recLE := ⟨fun _ _ _ h1 h2 => le_trans h1 h2⟩

/-- `self.intervals.sort_values(by='Top')`: reorder the rows ascending by
`Top`, keeping each row's label. -/
def sortDF (df : IntervalsDF) : IntervalsDF := ⟨List.insertionSort rowLE df.rows⟩

/-- `Well.add_interval(self, top, bottom, lithology, description='')`:
append the passed values (`ignore_index=True`), drop duplicate rows, then
sort by the `Top` column. -/
def add_interval (top bottom : ℚ) (lithology : String) (description : String)
    (df : IntervalsDF) : IntervalsDF :=
  sortDF (dedupDF (appendIgnoreIndex df ⟨lithology, top, bottom, description⟩))

/-- The failure modes of `remove_interval`: the explicit
`raise Exception(...)` when no selector is given, and pandas' `KeyError`
when `DataFrame.drop` is passed an absent label. -/
inductive RemoveError where
  | configError (msg : String)
  | keyError (label : Nat)
  deriving DecidableEq, Repr

/-- The message of the explicit `raise Exception(...)` in `remove_interval`. -/
def configMsg : String := "Need to specify a layer number or lithology!"

/-- `Well.remove_interval(self, layNum=None, lithology=None)`: raise when
both selectors are `None`; otherwise first `self.intervals.drop(layNum)`
(drop by index label, `KeyError` when the label is absent) when `layNum`
is given, then keep only rows with `Lithology != lithology` when
`lithology` is given. -/
def remove_interval (layNum : Option Nat) (lithology : Option String)
    (df : IntervalsDF) : Except RemoveError IntervalsDF :=
  if layNum = none ∧ lithology = none then
    .error (.configError configMsg)
  else
    match layNum with
    | some k =>
      if df.rows.any (fun p => p.1 = k) then
        let df1 : IntervalsDF := ⟨df.rows.filter (fun p => p.1 ≠ k)⟩
        match lithology with
        | some L => .ok ⟨df1.rows.filter (fun p => p.2.lithology ≠ L)⟩
        | none => .ok df1
      else
        .error (.keyError k)
    | none =>
      match lithology with
      | some L => .ok ⟨df.rows.filter (fun p => p.2.lithology ≠ L)⟩
      | none => .ok df

/-- A visual style triple from the plotting parameter dictionary. -/
structure Style where
  color : String
  hatch : String
  alpha : ℚ
  deriving DecidableEq, Repr

/-- The fixed `plotTemplates` dictionary mapping lithology names to their
styles; absent names yield `none` (a `KeyError` in Python). -/
def plotTemplates : String → Option Style
  | "Complex Zone" => some ⟨"wheat", "..", 9/10⟩
  | "Brown Clay" => some ⟨"tan", "---", 7/10⟩
  | "Grey Clay" => some ⟨"dimgray", "---", 8/10⟩
  | "Fill" => some ⟨"black", "..", 7/10⟩
  | "Silt" => some ⟨"tan", "\\\\\\", 8/10⟩
  | "Clay Silt" => some ⟨"tan", "\\,--", 8/10⟩
  | "Clay" => some ⟨"dimgray", "---", 8/10⟩
  | "Silt Clay" => some ⟨"rosybrown", "--,\\", 8/10⟩
  | "Till" => some ⟨"peru", "xx", 17/20⟩
  | "Bedrock" => some ⟨"khaki", "\\\\", 17/20⟩
  | _ => none

/-- A `Well` object: identity/location metadata plus its interval table.
(`date`, `project` and `logged_by` are free text never read by the
operations verified here and are omitted.) -/
structure Well where
  name : String
  xcoord : ℚ
  ycoord : ℚ
  elevation : ℚ
  intervals : IntervalsDF
  deriving DecidableEq, Repr

/-- One `ax.fill(x, y, c, hatch=h, alpha=alph, label=lith)` call: four
corner x-coordinates, four corner y-coordinates, and the style data. -/
structure Rect where
  xs : List ℚ
  ys : List ℚ
  color : String
  hatch : String
  alpha : ℚ
  label : String
  deriving DecidableEq, Repr

/-- One `ax.text(x, y, s, ...)` call. -/
structure TextLabel where
  x : ℚ
  y : ℚ
  text : String
  deriving DecidableEq, Repr

/-- The exceptions reachable from the two plot functions: pandas
`IndexError` from `iloc` with an out-of-range position, `KeyError` from the
`plotTemplates` dictionary lookup, and Python's `NameError` for reading a
never-assigned local variable. -/
inductive PlotError where
  | indexError
  | keyError (lith : String)
  | nameError (var : String)
  deriving DecidableEq, Repr

/-- Positional row access: `df.iloc[i]` for `i ≥ 0`. -/
def nthRow : List (Nat × IntervalRecord) → Nat → Option (Nat × IntervalRecord)
  | [], _ => none
  | p :: _, 0 => some p
  | _ :: ps, n + 1 => nthRow ps n

/-- `self.intervals.iloc[i]` inside the plot loops: the loop variable `i`
ranges over index *labels* but is used as a *position*; an out-of-range
position raises `IndexError`. -/
def ilocRecord (df : IntervalsDF) (i : Nat) : Except PlotError IntervalRecord :=
  match nthRow df.rows i with
  | some p => .ok p.2
  | none => .error .indexError

/-- What a completed `plotWell` call produced: the filled interval
rectangles, the placed text (interval descriptions), the y-axis limits
`(top, bttm)`, and the saved file name when `save=True`. -/
structure PlotWellOutput where
  rects : List Rect
  texts : List TextLabel
  ylim : ℚ × ℚ
  saved : Option String
  deriving DecidableEq, Repr

/-- The `for i in self.intervals.index:` loop of `plotWell`: for each index
label `i`, read `iloc[i]`, look the lithology up in `plotTemplates`, fill
the rectangle `x = [0,0,1,1]`, `y = [intTop, intBttm, intBttm, intTop]`,
and, when `description` is set, place the description text at
`(1*1.1, intTop)`. -/
def plotWellLoop (df : IntervalsDF) (descr : Bool) :
    List Nat → List Rect → List TextLabel →
    Except PlotError (List Rect × List TextLabel)
  | [], rects, texts => .ok (rects, texts)
  | i :: rest, rects, texts =>
    match ilocRecord df i with
    | .error e => .error e
    | .ok rec =>
      match plotTemplates rec.lithology with
      | none => .error (.keyError rec.lithology)
      | some st =>
        let r : Rect :=
          ⟨[0, 0, 1, 1], [rec.top, rec.bottom, rec.bottom, rec.top],
           st.color, st.hatch, st.alpha, rec.lithology⟩
        let texts' :=
          if descr then texts ++ [⟨11/10, rec.top, rec.description⟩] else texts
        plotWellLoop df descr rest (rects ++ [r]) texts'

/-- `Well.plotWell(self, description=True, hatch=True, legend=False,
figTitle=None, save=False)`: first read `iloc[0]['Top']` and
`iloc[-1]['Bottom']` for the depth axis, then run the interval loop, then
show (and optionally save under the well name with spaces replaced by
underscores).  The `hatch`, `legend` and `figTitle` parameters never touch
the interval data and are omitted. -/
def plotWell (descr save : Bool) (w : Well) : Except PlotError PlotWellOutput :=
  match nthRow w.intervals.rows 0 with
  | none => .error .indexError
  | some pTop =>
    match w.intervals.rows.getLast? with
    | none => .error .indexError
    | some pBttm =>
      match plotWellLoop w.intervals descr (w.intervals.rows.map Prod.fst) [] [] with
      | .error e => .error e
      | .ok (rects, texts) =>
        .ok ⟨rects, texts, (pTop.2.top, pBttm.2.bottom),
             if save then some (w.name.replace " " "_") else none⟩

/-- What a completed `plotSection` call produced: the filled interval
rectangles, the placed well-name labels, and the saved file name when
`save=True`. -/
structure PlotSectionOutput where
  rects : List Rect
  texts : List TextLabel
  saved : Option String
  deriving DecidableEq, Repr

/-- The inner `for i in w.intervals.index:` loop of `plotSection`.  The
state threads the Python local `xx`, which is only assigned inside this
loop (`xx = w.xcoord`), as an `Option ℚ` that starts as `none` before any
iteration of any well ever ran.  For each index label `i`: read `iloc[i]`,
convert depths to elevations (`intTop = w.elevation - Top`,
`intBttm = w.elevation - Bottom`), look the lithology up, set `xx`, and
fill `x = [xx, xx, xx+width, xx+width]`,
`y = [intTop, intBttm, intBttm, intTop]`. -/
def sectionWellLoop (w : Well) (width : ℚ) :
    List Nat → Option ℚ → List Rect → Except PlotError (Option ℚ × List Rect)
  | [], xx, rects => .ok (xx, rects)
  | i :: rest, _xx, rects =>
    match ilocRecord w.intervals i with
    | .error e => .error e
    | .ok rec =>
      let intTop := w.elevation - rec.top
      let intBttm := w.elevation - rec.bottom
      match plotTemplates rec.lithology with
      | none => .error (.keyError rec.lithology)
      | some st =>
        let xx' := w.xcoord
        let r : Rect :=
          ⟨[xx', xx', xx' + width, xx' + width],
           [intTop, intBttm, intBttm, intTop],
           st.color, st.hatch, st.alpha, rec.lithology⟩
        sectionWellLoop w width rest (some xx') (rects ++ [r])

/-- The outer `for w in wells:` loop of `plotSection`: run the interval
loop of each well, then place the well-name label at
`(xx + width*0.5, w.elevation + wellLabelHeight)` — reading the local `xx`,
which raises `NameError` when no interval iteration has ever assigned
it. -/
def sectionWells (width wellLabelHeight : ℚ) :
    List Well → Option ℚ → List Rect → List TextLabel →
    Except PlotError (Option ℚ × List Rect × List TextLabel)
  | [], xx, rects, texts => .ok (xx, rects, texts)
  | w :: ws, xx, rects, texts =>
    match sectionWellLoop w width (w.intervals.rows.map Prod.fst) xx rects with
    | .error e => .error e
    | .ok (xx', rects') =>
      match xx' with
      | none => .error (.nameError "xx")
      | some x =>
        sectionWells width wellLabelHeight ws (some x) rects'
          (texts ++ [⟨x + width * (1/2), w.elevation + wellLabelHeight, w.name⟩])

/-- `plotSection(wells, width=5, grid=True, save=False,
title='Cross-section', north=False, elevation=True, wellLabelHeight=1.5)`:
run the well loop, then show (and optionally save under the title with
spaces replaced by underscores).  `grid`, `north` and `elevation` only pick
axis cosmetics and are omitted. -/
def plotSection (wells : List Well) (width : ℚ) (save : Bool) (title : String)
    (wellLabelHeight : ℚ) : Except PlotError PlotSectionOutput :=
  match sectionWells width wellLabelHeight wells none [] [] with
  | .error e => .error e
  | .ok (_, rects, texts) =>
    .ok ⟨rects, texts, if save then some (title.replace " " "_") else none⟩

/-!
Python attribute semantics for claim C9: `intervals` is declared once at
class level (line 20 of `Well.py`), and every mutation executes
`self.intervals = <pure function of self.intervals>`.  Reading
`self.intervals` falls back to the class attribute when the instance has
never been assigned one; assigning always writes an instance attribute.
Wells are identified by an id; the state holds the class attribute and the
per-instance overrides.
-/

/-- The class attribute `Well.intervals` together with each instance's own
`intervals` attribute (`none` when the instance was never mutated). -/
structure PySystem where
  classIntervals : IntervalsDF
  instIntervals : String → Option IntervalsDF

/-- Attribute lookup `self.intervals`: the instance attribute when present,
otherwise the class attribute. -/
def getIntervals (σ : PySystem) (w : String) : IntervalsDF :=
  (σ.instIntervals w).getD σ.classIntervals

/-- Attribute assignment `self.intervals = df`. -/
def setIntervals (σ : PySystem) (w : String) (df : IntervalsDF) : PySystem :=
  ⟨σ.classIntervals, fun v => if v = w then some df else σ.instIntervals v⟩

/-- `w.add_interval(...)` acting on the system state. -/
def addIntervalOn (σ : PySystem) (w : String) (top bottom : ℚ)
    (lith descr : String) : PySystem :=
  setIntervals σ w (add_interval top bottom lith descr (getIntervals σ w))

/-- `w.remove_interval(...)` acting on the system state: on an exception
the assignment never happens and the state is unchanged. -/
def removeIntervalOn (σ : PySystem) (w : String) (layNum : Option Nat)
    (lith : Option String) : PySystem :=
  match remove_interval layNum lith (getIntervals σ w) with
  | .ok df => setIntervals σ w df
  | .error _ => σ

/-!
Auxiliary notions used to state the claims.
-/

/-- A single `add_interval` call's arguments. -/
structure AddCall where
  top : ℚ
  bottom : ℚ
  lithology : String
  description : String

/-- Apply one `add_interval` call. -/
def applyAdd (c : AddCall) (df : IntervalsDF) : IntervalsDF :=
  add_interval c.top c.bottom c.lithology c.description df

/-- Apply a sequence of `add_interval` calls, first to last. -/
def applyAdds (cs : List AddCall) (df : IntervalsDF) : IntervalsDF :=
  cs.foldl (fun d c => applyAdd c d) df

/-- The interval collection is sorted ascending by the `Top` column. -/
def SortedByTop (df : IntervalsDF) : Prop := List.Sorted rowLE df.rows

/-- The index labels of the rows are exactly the positions `0..n-1`, in
some order.  This holds for every table produced by `add_interval` calls
alone (`ignore_index=True` relabels to `0..n-1` and sorting permutes);
`remove_interval(layNum=...)` can break it. -/
def ValidLabels (df : IntervalsDF) : Prop :=
  List.Perm (df.rows.map Prod.fst) (List.range df.rows.length)

instance (df : IntervalsDF) : Decidable (ValidLabels df) :=
  inferInstanceAs
    (Decidable (List.Perm (df.rows.map Prod.fst) (List.range df.rows.length)))

/-- Modelled from the spec: removal of the interval at ordinal position
`k` of the Top-sorted order (the stored order), the semantics claim C3
attributes to `remove_interval(layNum=k)`. -/
def removeAtOrdinal_spec (k : Nat) (df : IntervalsDF) : IntervalsDF :=
  ⟨df.rows.take k ++ df.rows.drop (k + 1)⟩

/-!
Helper lemmas: how `records` commutes with the DataFrame operations.
-/

theorem records_appendIgnoreIndex (df : IntervalsDF) (r : IntervalRecord) :
    records (appendIgnoreIndex df r) = records df ++ [r] := by
  simp [records, appendIgnoreIndex, List.enum_map_snd]

theorem map_snd_dedupRowsAux (seen : List IntervalRecord)
    (l : List (Nat × IntervalRecord)) :
    (dedupRowsAux seen l).map Prod.snd = dedupRecsAux seen (l.map Prod.snd) := by
  induction l generalizing seen with
  | nil => rfl
  | cons p ps ih =>
    by_cases h : p.2 ∈ seen
    · simp [dedupRowsAux, dedupRecsAux, h, ih]
    · simp [dedupRowsAux, dedupRecsAux, h, ih]

theorem records_dedupDF (df : IntervalsDF) :
    records (dedupDF df) = dedupRecsAux [] (records df) := by
  simp [records, dedupDF, map_snd_dedupRowsAux]

theorem map_snd_orderedInsert (p : Nat × IntervalRecord)
    (l : List (Nat × IntervalRecord)) :
    (List.orderedInsert rowLE p l).map Prod.snd =
      List.orderedInsert recLE p.2 (l.map Prod.snd) := by
  induction l with
  | nil => rfl
  | cons q qs ih =>
    by_cases h : rowLE p q
    · have h' : recLE p.2 q.2 := h
      simp [List.orderedInsert, h, h']
    · have h' : ¬ recLE p.2 q.2 := h
      simp [List.orderedInsert, h, h', ih]

theorem map_snd_insertionSort (l : List (Nat × IntervalRecord)) :
    (List.insertionSort rowLE l).map Prod.snd =
      List.insertionSort recLE (l.map Prod.snd) := by
  induction l with
  | nil => rfl
  | cons p ps ih => simp [List.insertionSort, map_snd_orderedInsert, ih]

theorem records_sortDF (df : IntervalsDF) :
    records (sortDF df) = List.insertionSort recLE (records df) := by
  simp [records, sortDF, map_snd_insertionSort]

theorem records_add_interval (t b : ℚ) (li d : String) (df : IntervalsDF) :
    records (add_interval t b li d df) =
      List.insertionSort recLE
        (dedupRecsAux [] (records df ++ [⟨li, t, b, d⟩])) := by
  rw [add_interval, records_sortDF, records_dedupDF, records_appendIgnoreIndex]

/-!
Helper lemmas: keep-first duplicate dropping.
-/

theorem mem_of_mem_dedupRecsAux {x : IntervalRecord} :
    ∀ {seen l}, x ∈ dedupRecsAux seen l → x ∈ l := by
  intro seen l
  induction l generalizing seen with
  | nil => intro h; exact absurd h (List.not_mem_nil x)
  | cons r rs ih =>
    intro h
    by_cases hr : r ∈ seen
    · simp only [dedupRecsAux, if_pos hr] at h
      exact List.mem_cons_of_mem r (ih h)
    · simp only [dedupRecsAux, if_neg hr, List.mem_cons] at h
      rcases h with h | h
      · exact h ▸ List.mem_cons_self r rs
      · exact List.mem_cons_of_mem r (ih h)

theorem not_mem_seen_of_mem_dedupRecsAux {x : IntervalRecord} :
    ∀ {seen l}, x ∈ dedupRecsAux seen l → x ∉ seen := by
  intro seen l
  induction l generalizing seen with
  | nil => intro h; exact absurd h (List.not_mem_nil x)
  | cons r rs ih =>
    intro h
    by_cases hr : r ∈ seen
    · simp only [dedupRecsAux, if_pos hr] at h
      exact ih h
    · simp only [dedupRecsAux, if_neg hr, List.mem_cons] at h
      rcases h with h | h
      · exact h ▸ hr
      · intro hx
        exact ih h (List.mem_cons_of_mem r hx)

theorem nodup_dedupRecsAux :
    ∀ (seen l : List IntervalRecord), (dedupRecsAux seen l).Nodup := by
  intro seen l
  induction l generalizing seen with
  | nil => exact List.nodup_nil
  | cons r rs ih =>
    by_cases hr : r ∈ seen
    · simpa only [dedupRecsAux, if_pos hr] using ih seen
    · simp only [dedupRecsAux, if_neg hr]
      refine List.Nodup.cons ?_ (ih (r :: seen))
      intro hmem
      exact not_mem_seen_of_mem_dedupRecsAux hmem (List.mem_cons_self r seen)

theorem mem_dedupRecsAux {r : IntervalRecord} :
    ∀ {seen l}, r ∈ l → r ∉ seen → r ∈ dedupRecsAux seen l := by
  intro seen l
  induction l generalizing seen with
  | nil => intro h; exact absurd h (List.not_mem_nil r)
  | cons a rs ih =>
    intro hmem hseen
    rcases List.mem_cons.mp hmem with h | h
    · subst h
      simp only [dedupRecsAux, if_neg hseen]
      exact List.mem_cons_self r _
    · by_cases ha : a ∈ seen
      · simp only [dedupRecsAux, if_pos ha]
        exact ih h hseen
      · simp only [dedupRecsAux, if_neg ha]
        by_cases hra : r = a
        · exact hra ▸ List.mem_cons_self a _
        · refine List.mem_cons_of_mem a (ih h ?_)
          intro hx
          rcases List.mem_cons.mp hx with h' | h'
          · exact hra h'
          · exact hseen h'

theorem dedupRecsAux_eq_self :
    ∀ {seen l : List IntervalRecord}, l.Nodup → (∀ x ∈ l, x ∉ seen) →
      dedupRecsAux seen l = l := by
  intro seen l
  induction l generalizing seen with
  | nil => intro _ _; rfl
  | cons r rs ih =>
    intro hnd hdisj
    have hr : r ∉ seen := hdisj r (List.mem_cons_self r rs)
    simp only [dedupRecsAux, if_neg hr]
    congr 1
    refine ih (List.Nodup.of_cons hnd) ?_
    intro x hx hxmem
    rcases List.mem_cons.mp hxmem with h | h
    · exact (List.nodup_cons.mp hnd).1 (h ▸ hx)
    · exact hdisj x (List.mem_cons_of_mem r hx) h

theorem dedupRecsAux_append_seen :
    ∀ {seen l : List IntervalRecord} {r : IntervalRecord}, l.Nodup →
      (∀ x ∈ l, x ∉ seen) → r ∈ seen → dedupRecsAux seen (l ++ [r]) = l := by
  intro seen l r
  induction l generalizing seen with
  | nil =>
    intro _ _ hr
    simp only [List.nil_append, dedupRecsAux, if_pos hr]
  | cons a rs ih =>
    intro hnd hdisj hr
    have ha : a ∉ seen := hdisj a (List.mem_cons_self a rs)
    simp only [List.cons_append, dedupRecsAux, if_neg ha]
    congr 1
    refine ih (List.Nodup.of_cons hnd) ?_ (List.mem_cons_of_mem a hr)
    intro x hx hxmem
    rcases List.mem_cons.mp hxmem with h | h
    · exact (List.nodup_cons.mp hnd).1 (h ▸ hx)
    · exact hdisj x (List.mem_cons_of_mem a hx) h

theorem dedupRecsAux_append_mem :
    ∀ {seen l : List IntervalRecord} {r : IntervalRecord}, l.Nodup →
      (∀ x ∈ l, x ∉ seen) → r ∈ l → dedupRecsAux seen (l ++ [r]) = l := by
  intro seen l r
  induction l generalizing seen with
  | nil => intro _ _ hr; exact absurd hr (List.not_mem_nil r)
  | cons a rs ih =>
    intro hnd hdisj hr
    have ha : a ∉ seen := hdisj a (List.mem_cons_self a rs)
    simp only [List.cons_append, dedupRecsAux, if_neg ha]
    rcases List.mem_cons.mp hr with h | h
    · subst h
      congr 1
      refine dedupRecsAux_append_seen (List.Nodup.of_cons hnd) ?_
        (List.mem_cons_self r seen)
      intro x hx hxmem
      rcases List.mem_cons.mp hxmem with h' | h'
      · exact (List.nodup_cons.mp hnd).1 (h' ▸ hx)
      · exact hdisj x (List.mem_cons_of_mem r hx) h'
    · congr 1
      refine ih (List.Nodup.of_cons hnd) ?_ h
      intro x hx hxmem
      rcases List.mem_cons.mp hxmem with h' | h'
      · exact (List.nodup_cons.mp hnd).1 (h' ▸ hx)
      · exact hdisj x (List.mem_cons_of_mem a hx) h'

/-!
Helper lemmas: positional access.
-/

theorem nthRow_of_lt :
    ∀ {l : List (Nat × IntervalRecord)} {n : Nat}, n < l.length →
      ∃ p, nthRow l n = some p := by
  intro l
  induction l with
  | nil => intro n h; exact absurd h (Nat.not_lt_zero n)
  | cons p ps ih =>
    intro n h
    cases n with
    | zero => exact ⟨p, rfl⟩
    | succ m => exact ih (Nat.lt_of_succ_lt_succ h)

theorem exists_nthRow_of_mem {p : Nat × IntervalRecord} :
    ∀ {l : List (Nat × IntervalRecord)}, p ∈ l →
      ∃ n, n < l.length ∧ nthRow l n = some p := by
  intro l
  induction l with
  | nil => intro h; exact absurd h (List.not_mem_nil p)
  | cons q qs ih =>
    intro h
    rcases List.mem_cons.mp h with h | h
    · exact ⟨0, Nat.succ_pos _, by simp [nthRow, h]⟩
    · rcases ih h with ⟨n, hn, hnth⟩
      exact ⟨n + 1, Nat.succ_lt_succ hn, hnth⟩

theorem mem_of_nthRow {l : List (Nat × IntervalRecord)} {n : Nat}
    {p : Nat × IntervalRecord} :
    nthRow l n = some p → p ∈ l := by
  induction l generalizing n with
  | nil => intro h; exact absurd h (by simp [nthRow])
  | cons q qs ih =>
    intro h
    cases n with
    | zero =>
      simp only [nthRow, Option.some.injEq] at h
      exact h ▸ List.mem_cons_self q qs
    | succ m => exact List.mem_cons_of_mem q (ih h)

theorem validLabels_nthRow {df : IntervalsDF} (h : ValidLabels df) {i : Nat}
    (hi : i ∈ df.rows.map Prod.fst) : ∃ p, nthRow df.rows i = some p := by
  have : i ∈ List.range df.rows.length := h.mem_iff.mp hi
  exact nthRow_of_lt (List.mem_range.mp this)

theorem validLabels_pos_mem {df : IntervalsDF} (h : ValidLabels df) {j : Nat}
    (hj : j < df.rows.length) : j ∈ df.rows.map Prod.fst :=
  h.mem_iff.mpr (List.mem_range.mpr hj)

/-!
Helper lemmas: the interval loop of `plotSection`.
-/

theorem sectionWellLoop_mono {w : Well} {width : ℚ} :
    ∀ {L : List Nat} {xx : Option ℚ} {rects : List Rect}
      {out : Option ℚ × List Rect},
      sectionWellLoop w width L xx rects = .ok out → ∀ r ∈ rects, r ∈ out.2 := by
  intro L
  induction L with
  | nil =>
    intro xx rects out h r hr
    simp only [sectionWellLoop, Except.ok.injEq] at h
    rw [← h]
    exact hr
  | cons i rest ih =>
    intro xx rects out h r hr
    cases hIl : ilocRecord w.intervals i with
    | error e => simp [sectionWellLoop, hIl] at h
    | ok rec =>
      cases hT : plotTemplates rec.lithology with
      | none => simp [sectionWellLoop, hIl, hT] at h
      | some st =>
        simp only [sectionWellLoop, hIl, hT] at h
        exact ih h r (List.mem_append_left _ hr)

theorem sectionWellLoop_mem {w : Well} {width : ℚ} :
    ∀ {L : List Nat} {xx : Option ℚ} {rects : List Rect}
      {out : Option ℚ × List Rect},
      sectionWellLoop w width L xx rects = .ok out →
      ∀ i ∈ L, ∀ p : Nat × IntervalRecord, nthRow w.intervals.rows i = some p →
        ∃ r ∈ out.2,
          r.ys = [w.elevation - p.2.top, w.elevation - p.2.bottom,
                  w.elevation - p.2.bottom, w.elevation - p.2.top] := by
  intro L
  induction L with
  | nil =>
    intro xx rects out _ i hi
    exact absurd hi (List.not_mem_nil i)
  | cons i0 rest ih =>
    intro xx rects out h i hi p hp
    have hIl0 : ∃ rec, ilocRecord w.intervals i0 = .ok rec := by
      cases hq : nthRow w.intervals.rows i0 with
      | none =>
        exfalso
        simp [sectionWellLoop, ilocRecord, hq] at h
      | some q => exact ⟨q.2, by simp [ilocRecord, hq]⟩
    rcases hIl0 with ⟨rec, hIl⟩
    cases hT : plotTemplates rec.lithology with
    | none => simp [sectionWellLoop, hIl, hT] at h
    | some st =>
      simp only [sectionWellLoop, hIl, hT] at h
      rcases List.mem_cons.mp hi with hii | hii
      · subst hii
        have hrec : rec = p.2 := by
          simp only [ilocRecord, hp, Except.ok.injEq] at hIl
          exact hIl.symm
        subst hrec
        refine ⟨_, sectionWellLoop_mono h _
          (List.mem_append_right rects (List.mem_singleton.mpr rfl)), rfl⟩
      · exact ih h i hii p hp

theorem sectionWellLoop_ok {w : Well} {width : ℚ} :
    ∀ {L : List Nat} {xx : Option ℚ} {rects : List Rect},
      (∀ i ∈ L, ∃ p : Nat × IntervalRecord,
        nthRow w.intervals.rows i = some p ∧
        (plotTemplates p.2.lithology).isSome) →
      ∃ xx' rects', sectionWellLoop w width L xx rects = .ok (xx', rects')
        ∧ (xx' = xx ∨ xx' = some w.xcoord)
        ∧ (L ≠ [] → xx' = some w.xcoord) := by
  intro L
  induction L with
  | nil =>
    intro xx rects _
    exact ⟨xx, rects, rfl, Or.inl rfl, fun h => absurd rfl h⟩
  | cons i rest ih =>
    intro xx rects hall
    rcases hall i (List.mem_cons_self i rest) with ⟨p, hp, hsome⟩
    rcases Option.isSome_iff_exists.mp hsome with ⟨st, hst⟩
    have hIl : ilocRecord w.intervals i = .ok p.2 := by simp [ilocRecord, hp]
    rcases ih (fun j hj => hall j (List.mem_cons_of_mem i hj)) with
      ⟨xx', rects', hok, hdisj, _⟩
    refine ⟨xx', rects', ?_, ?_, fun _ => ?_⟩
    · simp only [sectionWellLoop, hIl, hst]
      exact hok
    · rcases hdisj with h | h
      · exact Or.inr h
      · exact Or.inr h
    · rcases hdisj with h | h
      · exact h
      · exact h

theorem sectionWellLoop_bad {w : Well} {width : ℚ} :
    ∀ {L : List Nat} {xx : Option ℚ} {rects : List Rect},
      (∀ i ∈ L, ∃ p : Nat × IntervalRecord, nthRow w.intervals.rows i = some p) →
      (∃ i ∈ L, ∃ p : Nat × IntervalRecord,
        nthRow w.intervals.rows i = some p ∧
        plotTemplates p.2.lithology = none) →
      ∃ li, sectionWellLoop w width L xx rects = .error (.keyError li)
        ∧ plotTemplates li = none := by
  intro L
  induction L with
  | nil =>
    intro xx rects _ hbad
    rcases hbad with ⟨i, hi, _⟩
    exact absurd hi (List.not_mem_nil i)
  | cons i0 rest ih =>
    intro xx rects hall hbad
    rcases hall i0 (List.mem_cons_self i0 rest) with ⟨p, hp⟩
    have hIl : ilocRecord w.intervals i0 = .ok p.2 := by simp [ilocRecord, hp]
    cases hT : plotTemplates p.2.lithology with
    | none =>
      refine ⟨p.2.lithology, ?_, hT⟩
      simp [sectionWellLoop, hIl, hT]
    | some st =>
      rcases hbad with ⟨j, hj, q, hq, hqT⟩
      rcases List.mem_cons.mp hj with hji | hji
      · subst hji
        rw [hp, Option.some.injEq] at hq
        rw [← hq] at hqT
        rw [hqT] at hT
        exact absurd hT (by simp)
      · rcases ih (fun j' hj' => hall j' (List.mem_cons_of_mem i0 hj'))
          ⟨j, hji, q, hq, hqT⟩ with ⟨li, herr, hliT⟩
        refine ⟨li, ?_, hliT⟩
        simp only [sectionWellLoop, hIl, hT]
        exact herr

/-!
Helper lemmas: the well loop of `plotSection`.
-/

theorem sectionWells_mono {width wlh : ℚ} :
    ∀ {ws : List Well} {xx : Option ℚ} {rects : List Rect}
      {texts : List TextLabel} {out : Option ℚ × List Rect × List TextLabel},
      sectionWells width wlh ws xx rects texts = .ok out →
      ∀ r ∈ rects, r ∈ out.2.1 := by
  intro ws
  induction ws with
  | nil =>
    intro xx rects texts out h r hr
    simp only [sectionWells, Except.ok.injEq] at h
    rw [← h]
    exact hr
  | cons w ws ih =>
    intro xx rects texts out h r hr
    cases hl : sectionWellLoop w width (w.intervals.rows.map Prod.fst) xx rects with
    | error e => simp [sectionWells, hl] at h
    | ok res =>
      rcases res with ⟨xx', rects'⟩
      cases hxx : xx' with
      | none =>
        rw [hxx] at hl
        simp [sectionWells, hl] at h
      | some x =>
        rw [hxx] at hl
        simp only [sectionWells, hl] at h
        exact ih h r (sectionWellLoop_mono hl r hr)

theorem sectionWells_mem {width wlh : ℚ} :
    ∀ {ws : List Well} {xx : Option ℚ} {rects : List Rect}
      {texts : List TextLabel} {out : Option ℚ × List Rect × List TextLabel},
      sectionWells width wlh ws xx rects texts = .ok out →
      ∀ w ∈ ws, ∀ i ∈ w.intervals.rows.map Prod.fst,
        ∀ p : Nat × IntervalRecord, nthRow w.intervals.rows i = some p →
          ∃ r ∈ out.2.1,
            r.ys = [w.elevation - p.2.top, w.elevation - p.2.bottom,
                    w.elevation - p.2.bottom, w.elevation - p.2.top] := by
  intro ws
  induction ws with
  | nil =>
    intro xx rects texts out _ w hw
    exact absurd hw (List.not_mem_nil w)
  | cons w0 ws ih =>
    intro xx rects texts out h w hw i hi p hp
    cases hl : sectionWellLoop w0 width (w0.intervals.rows.map Prod.fst) xx rects with
    | error e => simp [sectionWells, hl] at h
    | ok res =>
      rcases res with ⟨xx', rects'⟩
      cases hxx : xx' with
      | none =>
        rw [hxx] at hl
        simp [sectionWells, hl] at h
      | some x =>
        rw [hxx] at hl
        simp only [sectionWells, hl] at h
        rcases List.mem_cons.mp hw with hww | hww
        · subst hww
          rcases sectionWellLoop_mem hl i hi p hp with ⟨r, hr, hys⟩
          exact ⟨r, sectionWells_mono h r hr, hys⟩
        · exact ih h w hww i hi p hp

theorem sectionWells_bad {width wlh : ℚ} :
    ∀ {ws : List Well} {xx : Option ℚ} {rects : List Rect}
      {texts : List TextLabel},
      xx ≠ none →
      (∀ w ∈ ws, ValidLabels w.intervals) →
      (∃ w ∈ ws, ∃ p ∈ w.intervals.rows, plotTemplates p.2.lithology = none) →
      ∃ li, sectionWells width wlh ws xx rects texts = .error (.keyError li)
        ∧ plotTemplates li = none := by
  intro ws
  induction ws with
  | nil =>
    intro xx rects texts _ _ hbad
    rcases hbad with ⟨w, hw, _⟩
    exact absurd hw (List.not_mem_nil w)
  | cons w0 ws ih =>
    intro xx rects texts hxx hlab hbad
    have hlab0 : ValidLabels w0.intervals := hlab w0 (List.mem_cons_self w0 ws)
    have hall : ∀ i ∈ w0.intervals.rows.map Prod.fst,
        ∃ p : Nat × IntervalRecord, nthRow w0.intervals.rows i = some p :=
      fun i hi => validLabels_nthRow hlab0 hi
    by_cases hbad0 : ∃ p ∈ w0.intervals.rows, plotTemplates p.2.lithology = none
    · rcases hbad0 with ⟨p, hp, hpT⟩
      rcases exists_nthRow_of_mem hp with ⟨n, hn, hnth⟩
      have hnlab : n ∈ w0.intervals.rows.map Prod.fst :=
        validLabels_pos_mem hlab0 hn
      rcases @sectionWellLoop_bad w0 width (w0.intervals.rows.map Prod.fst)
        xx rects hall ⟨n, hnlab, p, hnth, hpT⟩ with ⟨li, herr, hliT⟩
      refine ⟨li, ?_, hliT⟩
      simp only [sectionWells, herr]
    · push_neg at hbad0
      have hgood : ∀ i ∈ w0.intervals.rows.map Prod.fst,
          ∃ p : Nat × IntervalRecord, nthRow w0.intervals.rows i = some p ∧
            (plotTemplates p.2.lithology).isSome := by
        intro i hi
        rcases hall i hi with ⟨p, hp⟩
        refine ⟨p, hp, ?_⟩
        exact Option.ne_none_iff_isSome.mp (hbad0 p (mem_of_nthRow hp))
      rcases @sectionWellLoop_ok w0 width (w0.intervals.rows.map Prod.fst)
        xx rects hgood with ⟨xx', rects', hok, hdisj, _⟩
      have hxx' : xx' ≠ none := by
        rcases hdisj with h | h
        · rw [h]; exact hxx
        · rw [h]; exact Option.some_ne_none _
      rcases Option.ne_none_iff_exists'.mp hxx' with ⟨x, hx⟩
      rw [hx] at hok
      have hbadtail : ∃ w ∈ ws, ∃ p ∈ w.intervals.rows,
          plotTemplates p.2.lithology = none := by
        rcases hbad with ⟨w, hw, p, hp, hpT⟩
        rcases List.mem_cons.mp hw with hww | hww
        · exact absurd hpT (by subst hww; simpa using hbad0 p hp)
        · exact ⟨w, hww, p, hp, hpT⟩
      rcases @ih (some x) rects'
        (texts ++ [⟨x + width * (1/2), w0.elevation + wlh, w0.name⟩])
        (Option.some_ne_none x)
        (fun w hw => hlab w (List.mem_cons_of_mem w0 hw)) hbadtail with
        ⟨li, herr, hliT⟩
      refine ⟨li, ?_, hliT⟩
      simp only [sectionWells, hok]
      exact herr

/-!
Helper lemmas: the interval loop of `plotWell`.
-/

theorem plotWellLoop_bad {df : IntervalsDF} {descr : Bool} :
    ∀ {L : List Nat} {rects : List Rect} {texts : List TextLabel},
      (∀ i ∈ L, ∃ p : Nat × IntervalRecord, nthRow df.rows i = some p) →
      (∃ i ∈ L, ∃ p : Nat × IntervalRecord,
        nthRow df.rows i = some p ∧ plotTemplates p.2.lithology = none) →
      ∃ li, plotWellLoop df descr L rects texts = .error (.keyError li)
        ∧ plotTemplates li = none := by
  intro L
  induction L with
  | nil =>
    intro rects texts _ hbad
    rcases hbad with ⟨i, hi, _⟩
    exact absurd hi (List.not_mem_nil i)
  | cons i0 rest ih =>
    intro rects texts hall hbad
    rcases hall i0 (List.mem_cons_self i0 rest) with ⟨p, hp⟩
    have hIl : ilocRecord df i0 = .ok p.2 := by simp [ilocRecord, hp]
    cases hT : plotTemplates p.2.lithology with
    | none =>
      refine ⟨p.2.lithology, ?_, hT⟩
      simp [plotWellLoop, hIl, hT]
    | some st =>
      rcases hbad with ⟨j, hj, q, hq, hqT⟩
      rcases List.mem_cons.mp hj with hji | hji
      · subst hji
        rw [hp, Option.some.injEq] at hq
        rw [← hq] at hqT
        rw [hqT] at hT
        exact absurd hT (by simp)
      · rcases ih (fun j' hj' => hall j' (List.mem_cons_of_mem i0 hj'))
          ⟨j, hji, q, hq, hqT⟩ with ⟨li, herr, hliT⟩
        refine ⟨li, ?_, hliT⟩
        simp only [plotWellLoop, hIl, hT]
        exact herr

theorem getLast?_of_ne_nil {α : Type} :
    ∀ {l : List α}, l ≠ [] → ∃ a, l.getLast? = some a := by
  intro l
  cases l with
  | nil => intro h; exact absurd rfl h
  | cons x xs =>
    intro _
    induction xs generalizing x with
    | nil => exact ⟨x, rfl⟩
    | cons y ys ih => rw [List.getLast?_cons_cons]; exact ih y (by simp)

/-!
Claims about the data-mutation interface.
-/

/-- Claim C2 (confirmed): for every well state and every sequence of
`add_interval` calls, after each call the interval collection is sorted
ascending by the `Top` field.  (Any point "after a call" in a sequence is
after some prefix `cs` followed by the call `c` just performed.) -/
theorem C2_sorted_after_each_add (cs : List AddCall) (c : AddCall)
    (df : IntervalsDF) : SortedByTop (applyAdds (cs ++ [c]) df) := by
  have h : applyAdds (cs ++ [c]) df = applyAdd c (applyAdds cs df) := by
    simp [applyAdds, List.foldl_append]
  rw [h]
  exact List.sorted_insertionSort rowLE _

/-- Claim C3, counterexample: after `add_interval(2,5,'Till')` then
`add_interval(0,2,'Clay')` the table stores `[Clay (label 1), Till (label
0)]`; `remove_interval(layNum=0)` removes the row *labelled* 0, i.e. Till —
the interval at ordinal position 1 of the Top-sorted order — and keeps
Clay, while removal at ordinal position 0 (the claim's reading) would keep
Till.  So `remove_interval(layNum=k)` does not target ordinal position `k`
at the time of the call. -/
theorem C3_counterexample :
    add_interval 0 2 "Clay" "" (add_interval 2 5 "Till" "" emptyIntervals)
        = ⟨[(1, ⟨"Clay", 0, 2, ""⟩), (0, ⟨"Till", 2, 5, ""⟩)]⟩
    ∧ remove_interval (some 0) none
        ⟨[(1, ⟨"Clay", 0, 2, ""⟩), (0, ⟨"Till", 2, 5, ""⟩)]⟩
        = .ok ⟨[(1, ⟨"Clay", 0, 2, ""⟩)]⟩
    ∧ records (removeAtOrdinal_spec 0
        ⟨[(1, ⟨"Clay", 0, 2, ""⟩), (0, ⟨"Till", 2, 5, ""⟩)]⟩)
        = [⟨"Till", 2, 5, ""⟩]
    ∧ ([⟨"Clay", 0, 2, ""⟩] : List IntervalRecord) ≠ [⟨"Till", 2, 5, ""⟩] :=
  ⟨rfl, rfl, rfl, by decide⟩

/-- Claim C3 (amended): `remove_interval(layNum=k)` removes exactly the
row whose pandas index *label* is `k` (keeping all other rows in order),
not the row at ordinal position `k` of the current Top-sorted order; the
labels were assigned by the most recent `add_interval`'s
`ignore_index=True` relabelling, i.e. by the pre-sort order at that time,
and are unchanged by sorting and removals. -/
theorem C3_remove_by_label (df : IntervalsDF) (k : Nat)
    (hk : k ∈ df.rows.map Prod.fst) :
    remove_interval (some k) none df
      = .ok ⟨df.rows.filter (fun p => p.1 ≠ k)⟩ := by
  have hany : df.rows.any (fun p => p.1 = k) = true := by
    rcases List.mem_map.mp hk with ⟨p, hp, hpk⟩
    exact List.any_eq_true.mpr ⟨p, hp, by simp [hpk]⟩
  simp [remove_interval, hany]

/-- Witness for C3 (amended) at a one-row table whose row carries label 3. -/
theorem C3_remove_by_label_witness :
    (3 ∈ (⟨[(3, ⟨"Till", 0, 2, ""⟩)]⟩ : IntervalsDF).rows.map Prod.fst)
    ∧ remove_interval (some 3) none ⟨[(3, ⟨"Till", 0, 2, ""⟩)]⟩
        = .ok ⟨([(3, ⟨"Till", 0, 2, ""⟩)] :
            List (Nat × IntervalRecord)).filter (fun p => p.1 ≠ 3)⟩ :=
  ⟨by decide, C3_remove_by_label ⟨[(3, ⟨"Till", 0, 2, ""⟩)]⟩ 3 (by decide)⟩

/-- Claim C5, counterexample: the configuration error's message is
`'Need to specify a layer number or lithology!'`, not the claimed
`"must specify a layer number or lithology"`; moreover with both selectors
supplied an error *can* still be raised — a `KeyError` — when `layNum` is
not a present label. -/
theorem C5_counterexample :
    remove_interval none none emptyIntervals
        = .error (.configError configMsg)
    ∧ configMsg ≠ "must specify a layer number or lithology"
    ∧ remove_interval (some 5) (some "Clay") emptyIntervals
        = .error (.keyError 5) :=
  ⟨rfl, by decide, rfl⟩

/-- Claim C5 (amended): `remove_interval` raises the configuration error —
whose message is `'Need to specify a layer number or lithology!'` — if and
only if both selectors are absent; when both selectors are supplied and
`layNum` is a present label, no error is raised and both operations are
applied in order: first removal of the row labelled `layNum`, then removal
of all remaining rows matching the lithology. -/
theorem C5_selector_semantics (df : IntervalsDF) (k : Nat) (L : String)
    (hk : k ∈ df.rows.map Prod.fst) :
    remove_interval none none df = .error (.configError configMsg)
    ∧ (∀ a b, remove_interval a b df = .error (.configError configMsg) →
        a = none ∧ b = none)
    ∧ remove_interval (some k) (some L) df
        = .ok ⟨(df.rows.filter (fun p => p.1 ≠ k)).filter
            (fun p => p.2.lithology ≠ L)⟩ := by
  have hany : df.rows.any (fun p => p.1 = k) = true := by
    rcases List.mem_map.mp hk with ⟨p, hp, hpk⟩
    exact List.any_eq_true.mpr ⟨p, hp, by simp [hpk]⟩
  refine ⟨by simp [remove_interval], ?_, by simp [remove_interval, hany]⟩
  intro a b h
  cases a with
  | none =>
    cases b with
    | none => exact ⟨rfl, rfl⟩
    | some L' => simp [remove_interval] at h
  | some j =>
    by_cases hj : df.rows.any (fun p => p.1 = j) = true
    · cases b with
      | none => simp [remove_interval, hj] at h
      | some L' => simp [remove_interval, hj] at h
    · cases b with
      | none => simp [remove_interval, hj] at h
      | some L' => simp [remove_interval, hj] at h

/-- Witness for C5 (amended) at a one-row table whose row carries label 0. -/
theorem C5_selector_semantics_witness :
    (0 ∈ (⟨[(0, ⟨"Till", 0, 2, ""⟩)]⟩ : IntervalsDF).rows.map Prod.fst)
    ∧ (remove_interval none none ⟨[(0, ⟨"Till", 0, 2, ""⟩)]⟩
          = .error (.configError configMsg)
      ∧ (∀ a b, remove_interval a b ⟨[(0, ⟨"Till", 0, 2, ""⟩)]⟩
            = .error (.configError configMsg) → a = none ∧ b = none)
      ∧ remove_interval (some 0) (some "Till") ⟨[(0, ⟨"Till", 0, 2, ""⟩)]⟩
          = .ok ⟨(([(0, ⟨"Till", 0, 2, ""⟩)] :
              List (Nat × IntervalRecord)).filter (fun p => p.1 ≠ 0)).filter
              (fun p => p.2.lithology ≠ "Till")⟩) :=
  ⟨by decide, C5_selector_semantics ⟨[(0, ⟨"Till", 0, 2, ""⟩)]⟩ 0 "Till"
    (by decide)⟩

/-- Claim C6 (confirmed): adding the exact same (Lithology, Top, Bottom,
Description) tuple twice leaves the stored records exactly as after the
first add, with exactly one stored record equal to that tuple.  (Stated
over the record contents; the second add can reassign pandas index
labels.) -/
theorem C6_duplicate_add_collapses (df : IntervalsDF) (t b : ℚ)
    (li d : String) :
    records (add_interval t b li d (add_interval t b li d df))
        = records (add_interval t b li d df)
    ∧ (records (add_interval t b li d (add_interval t b li d df))).count
        ⟨li, t, b, d⟩ = 1 := by
  have h1 := records_add_interval t b li d df
  have hded : (dedupRecsAux [] (records df ++ [⟨li, t, b, d⟩])).Nodup :=
    nodup_dedupRecsAux _ _
  have hnd1 : (records (add_interval t b li d df)).Nodup := by
    rw [h1]
    exact (List.perm_insertionSort recLE _).nodup_iff.mpr hded
  have hmem1 : (⟨li, t, b, d⟩ : IntervalRecord)
      ∈ records (add_interval t b li d df) := by
    rw [h1]
    refine (List.perm_insertionSort recLE _).mem_iff.mpr ?_
    exact mem_dedupRecsAux
      (List.mem_append_right _ (List.mem_singleton.mpr rfl))
      (List.not_mem_nil _)
  have hsorted : List.Sorted recLE (records (add_interval t b li d df)) := by
    rw [h1]
    exact List.sorted_insertionSort recLE _
  have h2 : records (add_interval t b li d (add_interval t b li d df))
      = records (add_interval t b li d df) := by
    rw [records_add_interval t b li d (add_interval t b li d df)]
    rw [dedupRecsAux_append_mem hnd1 (fun x _ hx => List.not_mem_nil x hx)
      hmem1]
    exact hsorted.insertionSort_eq
  refine ⟨h2, ?_⟩
  rw [h2]
  exact List.count_eq_one_of_mem hnd1 hmem1

/-- Claim C7 (confirmed): `remove_interval(lithology=L)` succeeds on every
table, removing every stored row whose Lithology equals `L` and keeping
every other row unchanged in its relative order (the result's rows are a
sublist of the original rows containing every original row whose lithology
is not `L`). -/
theorem C7_remove_lithology (df : IntervalsDF) (L : String) :
    ∃ df', remove_interval none (some L) df = .ok df'
      ∧ (∀ p ∈ df'.rows, p.2.lithology ≠ L)
      ∧ df'.rows.Sublist df.rows
      ∧ (∀ p ∈ df.rows, p.2.lithology = L ∨ p ∈ df'.rows) := by
  refine ⟨⟨df.rows.filter (fun p => p.2.lithology ≠ L)⟩, ?_, ?_, ?_, ?_⟩
  · simp [remove_interval]
  · intro p hp
    have h := (List.mem_filter.mp hp).2
    simpa using h
  · exact List.filter_sublist df.rows
  · intro p hp
    by_cases hL : p.2.lithology = L
    · exact Or.inl hL
    · exact Or.inr (List.mem_filter.mpr ⟨hp, by simpa using hL⟩)

/-- Claim C9 (confirmed): mutating one `Well` instance never changes
another instance's interval collection, although the empty table is
declared once at class level: every mutation is
`self.intervals = <fresh DataFrame>`, which writes an instance attribute
and never mutates the shared class attribute in place. -/
theorem C9_instance_isolation (σ : PySystem) (w1 w2 : String) (t b : ℚ)
    (li d : String) (layNum : Option Nat) (lith : Option String)
    (h : w1 ≠ w2) :
    getIntervals (addIntervalOn σ w1 t b li d) w2 = getIntervals σ w2
    ∧ getIntervals (removeIntervalOn σ w1 layNum lith) w2
        = getIntervals σ w2 := by
  have hne : ¬ (w2 = w1) := fun hh => h hh.symm
  constructor
  · simp [addIntervalOn, setIntervals, getIntervals, hne]
  · cases hr : remove_interval layNum lith (getIntervals σ w1) with
    | ok df' =>
      simp only [removeIntervalOn, hr]
      simp [setIntervals, getIntervals, hne]
    | error e => simp only [removeIntervalOn, hr]

/-- Witness for C9 on a fresh two-well system. -/
theorem C9_instance_isolation_witness :
    ("w1" : String) ≠ "w2"
    ∧ (getIntervals
          (addIntervalOn ⟨emptyIntervals, fun _ => none⟩ "w1" 0 2 "Clay" "")
          "w2"
        = getIntervals ⟨emptyIntervals, fun _ => none⟩ "w2"
      ∧ getIntervals
          (removeIntervalOn ⟨emptyIntervals, fun _ => none⟩ "w1" (some 0) none)
          "w2"
        = getIntervals ⟨emptyIntervals, fun _ => none⟩ "w2") :=
  ⟨by decide,
   C9_instance_isolation ⟨emptyIntervals, fun _ => none⟩ "w1" "w2" 0 2 "Clay"
     "" (some 0) none (by decide)⟩

/-- Claim C10 (confirmed): `plotWell` on a well with an empty interval
collection fails with an `IndexError` at `self.intervals.iloc[0]['Top']`,
before the figure is created and before any drawing, display or file
write (the error result carries no output). -/
theorem C10_plotWell_empty (descr save : Bool) (w : Well)
    (h : w.intervals.rows = []) :
    plotWell descr save w = .error .indexError := by
  simp [plotWell, h, nthRow]

/-- Witness for C10 on a default-constructed well. -/
theorem C10_plotWell_empty_witness :
    ((⟨"Borehole", 0, 0, 0, emptyIntervals⟩ : Well).intervals.rows = [])
    ∧ plotWell true false ⟨"Borehole", 0, 0, 0, emptyIntervals⟩
        = .error .indexError :=
  ⟨rfl, C10_plotWell_empty true false ⟨"Borehole", 0, 0, 0, emptyIntervals⟩
    rfl⟩

/-!
Claims about the rendering functions.
-/

/-- Claim C1, counterexample: a well reachable through the public
interface — `add_interval(2,5,'Clay')`, `add_interval(0,2,'Till')`,
`remove_interval(layNum=0)` — retains one interval carrying index label 1;
`plotSection` then evaluates `iloc[1]` on a one-row table and raises
`IndexError`, drawing no rectangle at all for that stored interval. -/
theorem C1_counterexample :
    remove_interval (some 0) none
        (add_interval 0 2 "Till" "" (add_interval 2 5 "Clay" "" emptyIntervals))
      = .ok ⟨[(1, ⟨"Till", 0, 2, ""⟩)]⟩
    ∧ plotSection [⟨"W1", 0, 0, 100, ⟨[(1, ⟨"Till", 0, 2, ""⟩)]⟩⟩] 5 false
        "Cross-section" (3/2) = .error .indexError :=
  ⟨rfl, rfl⟩

/-- Claim C1 (amended): provided `plotSection` completes (returns its
figure) and every well's interval index labels are a permutation of its
row positions — as holds for wells populated by `add_interval` alone —
every stored interval of every well in the list is drawn as a rectangle
whose corner y-coordinates are exactly
`[E - T, E - B, E - B, E - T]`, i.e. spanning the vertical range
`[E - B, E - T]` obtained by subtracting Top and Bottom independently from
the well's elevation `E`. -/
theorem C1_section_spans (wells : List Well) (width : ℚ) (save : Bool)
    (title : String) (wlh : ℚ) (out : PlotSectionOutput)
    (hok : plotSection wells width save title wlh = .ok out)
    (hlab : ∀ w ∈ wells, ValidLabels w.intervals) :
    ∀ w ∈ wells, ∀ p ∈ w.intervals.rows,
      ∃ r ∈ out.rects,
        r.ys = [w.elevation - p.2.top, w.elevation - p.2.bottom,
                w.elevation - p.2.bottom, w.elevation - p.2.top] := by
  intro w hw p hp
  cases hs : sectionWells width wlh wells none [] [] with
  | error e => simp [plotSection, hs] at hok
  | ok res =>
    rcases res with ⟨xx, rects, texts⟩
    have hout : (⟨rects, texts,
        if save then some (title.replace " " "_") else none⟩ :
        PlotSectionOutput) = out := by
      have h2 := hok
      simp only [plotSection, hs, Except.ok.injEq] at h2
      exact h2
    rcases exists_nthRow_of_mem hp with ⟨n, hn, hnth⟩
    have hnlab : n ∈ w.intervals.rows.map Prod.fst :=
      validLabels_pos_mem (hlab w hw) hn
    rcases sectionWells_mem hs w hw n hnlab p hnth with ⟨r, hr, hys⟩
    refine ⟨r, ?_, hys⟩
    rw [← hout]
    exact hr

/-- Witness for C1 (amended): one well at elevation 100 with the single
interval Clay [0,2]; `plotSection` succeeds and draws the rectangle with
corner y-coordinates `[100-0, 100-2, 100-2, 100-0]`. -/
theorem C1_section_spans_witness :
    (plotSection [⟨"W1", 0, 0, 100, add_interval 0 2 "Clay" "" emptyIntervals⟩]
        5 false "Cross-section" (3/2)
      = .ok ⟨[⟨[0, 0, 5, 5], [100, 98, 98, 100], "dimgray", "---", 8/10,
              "Clay"⟩], [⟨5/2, 203/2, "W1"⟩], none⟩)
    ∧ (∃ r ∈ (⟨[⟨[0, 0, 5, 5], [100, 98, 98, 100], "dimgray", "---", 8/10,
              "Clay"⟩], [⟨5/2, 203/2, "W1"⟩], none⟩ :
          PlotSectionOutput).rects,
        r.ys = [(100 : ℚ) - 0, 100 - 2, 100 - 2, 100 - 0]) := by
  constructor
  · simp [plotSection, sectionWells, sectionWellLoop, ilocRecord, nthRow,
      add_interval, sortDF, dedupDF, appendIgnoreIndex, records,
      emptyIntervals, dedupRowsAux, List.insertionSort, List.orderedInsert,
      plotTemplates]
    norm_num
  · exact C1_section_spans
      [⟨"W1", 0, 0, 100, add_interval 0 2 "Clay" "" emptyIntervals⟩] 5 false
      "Cross-section" (3/2)
      ⟨[⟨[0, 0, 5, 5], [100, 98, 98, 100], "dimgray", "---", 8/10, "Clay"⟩],
       [⟨5/2, 203/2, "W1"⟩], none⟩
      (by
        simp [plotSection, sectionWells, sectionWellLoop, ilocRecord, nthRow,
          add_interval, sortDF, dedupDF, appendIgnoreIndex, records,
          emptyIntervals, dedupRowsAux, List.insertionSort,
          List.orderedInsert, plotTemplates]
        norm_num)
      (by
        intro w hw
        rw [List.mem_singleton] at hw
        subst hw
        decide)
      ⟨"W1", 0, 0, 100, add_interval 0 2 "Clay" "" emptyIntervals⟩
      (List.mem_singleton.mpr rfl)
      (0, ⟨"Clay", 0, 2, ""⟩)
      (by decide)

/-- Claim C4 (code bug): `xx` is assigned only inside the interval loop,
so `plotSection` on a list whose first well has no intervals raises
`NameError` at the label step instead of silently contributing a label;
and an empty well after a nonempty one gets its name label at the
*previous* well's x-position (stale `xx`): with well A at x=10 and empty
well B at x=100, both labels sit at x = 10 + 5·0.5 = 25/2, while B's own
position would give 100 + 5·0.5 ≠ 25/2 (B's label y does use B's own
elevation, 90 + 1.5 = 183/2). -/
theorem C4_empty_well_bug :
    plotSection [⟨"A", 50, 0, 100, emptyIntervals⟩] 5 false "Cross-section"
        (3/2) = .error (.nameError "xx")
    ∧ plotSection [⟨"A", 10, 0, 100, ⟨[(0, ⟨"Clay", 0, 2, ""⟩)]⟩⟩,
        ⟨"B", 100, 0, 90, emptyIntervals⟩] 5 false "Cross-section" (3/2)
      = .ok ⟨[⟨[10, 10, 15, 15], [100, 98, 98, 100], "dimgray", "---", 8/10,
              "Clay"⟩], [⟨25/2, 203/2, "A"⟩, ⟨25/2, 183/2, "B"⟩], none⟩
    ∧ ((25/2 : ℚ) ≠ 100 + 5 * (1/2)) := by
  refine ⟨rfl, ?_, by norm_num⟩
  simp [plotSection, sectionWells, sectionWellLoop, ilocRecord, nthRow,
    emptyIntervals, plotTemplates]
  norm_num

/-- Claim C8, counterexample: the well reachable through
`add_interval(2,5,'Clay')`, `add_interval(0,2,'Marble')`,
`remove_interval(layNum=0)` stores exactly one interval, whose lithology
`'Marble'` is absent from the style table — yet `plotWell` fails with
`IndexError` (its remaining row carries label 1, and `iloc[1]` is out of
range on a one-row table), not with the claimed lookup error. -/
theorem C8_counterexample :
    remove_interval (some 0) none
        (add_interval 0 2 "Marble" ""
          (add_interval 2 5 "Clay" "" emptyIntervals))
      = .ok ⟨[(1, ⟨"Marble", 0, 2, ""⟩)]⟩
    ∧ plotTemplates "Marble" = none
    ∧ plotWell true false ⟨"W1", 0, 0, 100, ⟨[(1, ⟨"Marble", 0, 2, ""⟩)]⟩⟩
        = .error .indexError :=
  ⟨rfl, rfl, rfl⟩

/-- Claim C8 (amended): provided interval index labels are a permutation
of row positions (as for wells populated by `add_interval` alone),
rendering a well containing an interval whose lithology is absent from the
style table fails with a lookup error naming an absent lithology — via
`plotWell`, and via `plotSection` on a list of such wells whose first well
has at least one interval.  The error propagates and, the failing call
being modelled as `Except.error`, yields no output: no drawn figure and no
saved file. -/
theorem C8_missing_lithology (well : Well) (descr save : Bool) (w0 : Well)
    (ws : List Well) (width wlh : ℚ) (sv : Bool) (title : String)
    (hwl : ValidLabels well.intervals)
    (hwbad : ∃ p ∈ well.intervals.rows, plotTemplates p.2.lithology = none)
    (hlab : ∀ w ∈ w0 :: ws, ValidLabels w.intervals)
    (h0 : w0.intervals.rows ≠ [])
    (hbad : ∃ w ∈ w0 :: ws, ∃ p ∈ w.intervals.rows,
      plotTemplates p.2.lithology = none) :
    (∃ li, plotWell descr save well = .error (.keyError li)
      ∧ plotTemplates li = none)
    ∧ (∃ li, plotSection (w0 :: ws) width sv title wlh
        = .error (.keyError li) ∧ plotTemplates li = none) := by
  constructor
  · rcases hwbad with ⟨p, hp, hpT⟩
    have hne : well.intervals.rows ≠ [] := by
      intro hnil
      rw [hnil] at hp
      exact List.not_mem_nil p hp
    have h0lt : 0 < well.intervals.rows.length := List.length_pos.mpr hne
    rcases nthRow_of_lt h0lt with ⟨p0, hp0⟩
    rcases getLast?_of_ne_nil hne with ⟨plast, hlast⟩
    have hall : ∀ i ∈ well.intervals.rows.map Prod.fst,
        ∃ q : Nat × IntervalRecord, nthRow well.intervals.rows i = some q :=
      fun i hi => validLabels_nthRow hwl hi
    rcases exists_nthRow_of_mem hp with ⟨n, hn, hnth⟩
    have hnlab : n ∈ well.intervals.rows.map Prod.fst :=
      validLabels_pos_mem hwl hn
    rcases @plotWellLoop_bad well.intervals descr
      (well.intervals.rows.map Prod.fst) [] [] hall
      ⟨n, hnlab, p, hnth, hpT⟩ with ⟨li, herr, hliT⟩
    refine ⟨li, ?_, hliT⟩
    simp only [plotWell, hp0, hlast, herr]
  · have hlab0 : ValidLabels w0.intervals :=
      hlab w0 (List.mem_cons_self w0 ws)
    have hall0 : ∀ i ∈ w0.intervals.rows.map Prod.fst,
        ∃ q : Nat × IntervalRecord, nthRow w0.intervals.rows i = some q :=
      fun i hi => validLabels_nthRow hlab0 hi
    by_cases hbad0 : ∃ p ∈ w0.intervals.rows, plotTemplates p.2.lithology = none
    · rcases hbad0 with ⟨p, hp, hpT⟩
      rcases exists_nthRow_of_mem hp with ⟨n, hn, hnth⟩
      rcases @sectionWellLoop_bad w0 width (w0.intervals.rows.map Prod.fst)
        none [] hall0 ⟨n, validLabels_pos_mem hlab0 hn, p, hnth, hpT⟩ with
        ⟨li, herr, hliT⟩
      refine ⟨li, ?_, hliT⟩
      simp only [plotSection, sectionWells, herr]
    · push_neg at hbad0
      have hgood : ∀ i ∈ w0.intervals.rows.map Prod.fst,
          ∃ q : Nat × IntervalRecord, nthRow w0.intervals.rows i = some q ∧
            (plotTemplates q.2.lithology).isSome := by
        intro i hi
        rcases hall0 i hi with ⟨q, hq⟩
        exact ⟨q, hq,
          Option.ne_none_iff_isSome.mp (hbad0 q (mem_of_nthRow hq))⟩
      rcases @sectionWellLoop_ok w0 width (w0.intervals.rows.map Prod.fst)
        none [] hgood with ⟨xx', rects', hok, _, hne'⟩
      have hlne : w0.intervals.rows.map Prod.fst ≠ [] := by
        simpa [List.map_eq_nil_iff] using h0
      rw [hne' hlne] at hok
      have hbadtail : ∃ w ∈ ws, ∃ p ∈ w.intervals.rows,
          plotTemplates p.2.lithology = none := by
        rcases hbad with ⟨w, hw, p, hp, hpT⟩
        rcases List.mem_cons.mp hw with hww | hww
        · exact absurd hpT (by subst hww; simpa using hbad0 p hp)
        · exact ⟨w, hww, p, hp, hpT⟩
      rcases @sectionWells_bad width wlh ws (some w0.xcoord) rects'
        ([] ++ [⟨w0.xcoord + width * (1/2), w0.elevation + wlh, w0.name⟩])
        (Option.some_ne_none _)
        (fun w hw => hlab w (List.mem_cons_of_mem w0 hw)) hbadtail with
        ⟨li, herr, hliT⟩
      refine ⟨li, ?_, hliT⟩
      simp only [plotSection, sectionWells, hok, herr]

/-- Witness for C8 (amended) on a single-interval well whose lithology
`'Granite'` is not in the style table. -/
theorem C8_missing_lithology_witness :
    ValidLabels (⟨[(0, ⟨"Granite", 0, 2, ""⟩)]⟩ : IntervalsDF)
    ∧ (∃ p ∈ (⟨[(0, ⟨"Granite", 0, 2, ""⟩)]⟩ : IntervalsDF).rows,
        plotTemplates p.2.lithology = none)
    ∧ (∀ w ∈ [(⟨"W", 0, 0, 100, ⟨[(0, ⟨"Granite", 0, 2, ""⟩)]⟩⟩ : Well)],
        ValidLabels w.intervals)
    ∧ ((⟨"W", 0, 0, 100, ⟨[(0, ⟨"Granite", 0, 2, ""⟩)]⟩⟩ :
        Well)).intervals.rows ≠ []
    ∧ (∃ w ∈ [(⟨"W", 0, 0, 100, ⟨[(0, ⟨"Granite", 0, 2, ""⟩)]⟩⟩ : Well)],
        ∃ p ∈ w.intervals.rows, plotTemplates p.2.lithology = none)
    ∧ ((∃ li, plotWell true false
          ⟨"W", 0, 0, 100, ⟨[(0, ⟨"Granite", 0, 2, ""⟩)]⟩⟩
          = .error (.keyError li) ∧ plotTemplates li = none)
      ∧ (∃ li, plotSection
          [⟨"W", 0, 0, 100, ⟨[(0, ⟨"Granite", 0, 2, ""⟩)]⟩⟩] 5 false
          "Cross-section" (3/2)
          = .error (.keyError li) ∧ plotTemplates li = none)) :=
  ⟨by decide, by decide,
   by
     intro w hw
     rw [List.mem_singleton] at hw
     subst hw
     decide,
   by decide, by decide,
   C8_missing_lithology ⟨"W", 0, 0, 100, ⟨[(0, ⟨"Granite", 0, 2, ""⟩)]⟩⟩
     true false ⟨"W", 0, 0, 100, ⟨[(0, ⟨"Granite", 0, 2, ""⟩)]⟩⟩ [] 5 (3/2)
     false "Cross-section" (by decide) (by decide)
     (by
       intro w hw
       rw [List.mem_singleton] at hw
       subst hw
       decide)
     (by decide) (by decide)⟩

end GeotechLogs

